import Mathlib

/-!
Verification development for the accent-benchmark corpus-preparation pipeline
(`qc_and_build_splits.py` and `manifests/audit_manifests.py`).

The Python source is embedded shallowly:
* CSV rows become the `Row` structure; the filesystem that `Path.exists` and
  `soundfile.info` consult becomes an explicit `FileSystem` argument.
* Python floats that arise from parsing the manifest `duration` field are
  modelled by `PFloat` (`nan` or a rational value); comparisons against `nan`
  are `false`, as in IEEE semantics, which is what drives the quality gate's
  behaviour on empty duration fields.
* `sklearn.model_selection.train_test_split` is a third-party collaborator,
  not repository code; it is modelled by `ttsPlain` / `ttsStrat` below with a
  concrete deterministic seeded permutation and the validity checks the
  library documents (empty train/test set, least-populated class below 2,
  class count exceeding the subset sizes).  Raised `ValueError`s become
  `Except.error`.
-/

namespace AccentBench

/-- Result of Python `float(...)` applied to a manifest duration string:
either a NaN or an actual rational value. -/
inductive PFloat where
  | nan : PFloat
  | val : ℚ → PFloat
deriving DecidableEq, Repr

/-- Raw content of the `duration` CSV field of a manifest row. -/
inductive DurField where
  | empty : DurField
  | numeric : ℚ → DurField
  | nanLiteral : DurField
  | unparseable : DurField
deriving DecidableEq, Repr

/-- One manifest row, with the columns the pipeline reads. -/
structure Row where
  path : String
  text : String
  duration : DurField
  primary_language : String
  native_place_state : String
  gender : String
  job_category : String
  occupation_domain : String
deriving DecidableEq, Repr

/-- What the filesystem holds at a path: nothing, a file whose audio header
cannot be read, or an audio file with the given header data. -/
inductive FileInfo where
  | absent : FileInfo
  | unreadable : FileInfo
  | audio : Nat → Nat → FileInfo
deriving DecidableEq, Repr

/-- The ambient filesystem consulted by `Path.exists` and `sf.info`. -/
abbrev FileSystem := String → FileInfo

/-- QC parameter `MIN_DUR = 0.3` seconds. -/
def MIN_DUR : ℚ := 3/10

/-- QC parameter `MAX_DUR = 30.0` seconds. -/
def MAX_DUR : ℚ := 30

/-- QC parameter `DUR_ABS_TOL = 0.10` seconds. -/
def DUR_ABS_TOL : ℚ := 1/10

/-- QC parameter `REQUIRE_MIN_TOKENS = 1`. -/
def REQUIRE_MIN_TOKENS : Nat := 1

/-- Embedding of `file_duration_sec`: probe the audio header; if the file is
readable audio and both samplerate and frame count are truthy (nonzero),
return `frames / samplerate`, else `None`. -/
def file_duration_sec (fs : FileSystem) (p : String) : Option ℚ :=
  match fs p with
  | .audio sr fr => if sr ≠ 0 ∧ fr ≠ 0 then some ((fr : ℚ) / (sr : ℚ)) else none
  | _ => none

/-- Embedding of `float(r.get("duration", "") or "nan")` wrapped in
`try/except`: an empty field falls through to `float("nan")`, a numeric field
parses, a `nan` literal parses to NaN, and anything unparseable raises and is
caught, producing `None`. -/
def dur_manifest (d : DurField) : Option PFloat :=
  match d with
  | .empty => some .nan
  | .numeric q => some (.val q)
  | .nanLiteral => some .nan
  | .unparseable => none

/-- Python `s.strip()`: drop whitespace from both ends (computed on the
character list so that it reduces inside the kernel). -/
def pyStrip (s : String) : String :=
  String.mk (((s.data.dropWhile Char.isWhitespace).reverse.dropWhile
    Char.isWhitespace).reverse)

/-- Helper for Python `s.split()`: cut a character list at whitespace runs,
discarding empty chunks; `acc` holds the current word reversed. -/
def wordsAux : List Char → List Char → List (List Char)
  | [], acc => if acc = [] then [] else [acc.reverse]
  | c :: cs, acc =>
    if c.isWhitespace then
      if acc = [] then wordsAux cs [] else acc.reverse :: wordsAux cs []
    else wordsAux cs (c :: acc)

/-- Number of whitespace-separated tokens of `text.strip()`, i.e. Python
`len(text.split())`. -/
def tokenCount (s : String) : Nat :=
  ((wordsAux (pyStrip s).data []).map String.mk).length

/-- Python `x < c` where `x` may be NaN: false on NaN. -/
def PFloat.ltQ : PFloat → ℚ → Bool
  | .nan, _ => false
  | .val q, c => decide (q < c)

/-- Python `x > c` where `x` may be NaN: false on NaN. -/
def PFloat.gtQ : PFloat → ℚ → Bool
  | .nan, _ => false
  | .val q, c => decide (q > c)

/-- Python `abs(m - f) > tol` where `m` may be NaN: false on NaN. -/
def PFloat.absDiffGt : PFloat → ℚ → ℚ → Bool
  | .nan, _, _ => false
  | .val m, f, tol => decide (|m - f| > tol)

/-- The local variable `duration` of `qc_rows`: the measured file duration
when available, else the parsed manifest duration. -/
def resolvedDuration (fs : FileSystem) (r : Row) : Option PFloat :=
  match file_duration_sec fs r.path with
  | some q => some (.val q)
  | none => dur_manifest r.duration

/-- The `reasons` list accumulated by `qc_rows` for one row, in the order the
source appends them: `file_missing`, `text_too_short`, `no_duration` or the
bound checks, then `duration_mismatch`. -/
def qcReasons (fs : FileSystem) (r : Row) : List String :=
  (if fs r.path = .absent then ["file_missing"] else []) ++
  (if REQUIRE_MIN_TOKENS ≠ 0 ∧ tokenCount r.text < REQUIRE_MIN_TOKENS then
    ["text_too_short"] else []) ++
  (match resolvedDuration fs r with
   | none => ["no_duration"]
   | some d =>
     (if d.ltQ MIN_DUR then ["too_short"] else []) ++
     (if d.gtQ MAX_DUR then ["too_long"] else [])) ++
  (match dur_manifest r.duration, file_duration_sec fs r.path with
   | some m, some f => if m.absDiffGt f DUR_ABS_TOL then ["duration_mismatch"] else []
   | _, _ => [])

/-- Rounding performed by the `f"{dur_file:.3f}"` format used when the kept
row's duration is overwritten. -/
def fmt3 (q : ℚ) : ℚ := ((round (q * 1000) : ℤ) : ℚ) / 1000

/-- The kept copy of a row: its duration is normalized to the measured file
duration (3-decimal formatted) when a measured value exists. -/
def keptRow (fs : FileSystem) (r : Row) : Row :=
  match file_duration_sec fs r.path with
  | some f => { r with duration := .numeric (fmt3 f) }
  | none => r

/-- Embedding of `qc_rows`: fold over the rows, appending each row either to
the kept list (normalized) or to the rejected list together with its
reasons. -/
def qc_rows (fs : FileSystem) (rows : List Row) : List Row × List (Row × List String) :=
  rows.foldl
    (fun acc r =>
      if qcReasons fs r = [] then (acc.1 ++ [keptRow fs r], acc.2)
      else (acc.1, acc.2 ++ [(r, qcReasons fs r)]))
    ([], [])

/-- The `(l1, state, gender)` key type used by the speaker-id counter. -/
abbrev Tup := String × String × String

/-- Python `(s or "").strip() or dflt`: strip whitespace, defaulting to
`dflt` when the result is empty. -/
def stripOr (s dflt : String) : String :=
  if pyStrip s = "" then dflt else pyStrip s

/-- The counter key built by `make_speaker_ids` for one row. -/
def rowTuple (r : Row) : Tup :=
  (stripOr r.primary_language "UNK", stripOr r.native_place_state "UNK",
   stripOr r.gender "U")

/-- Python `f"{n:04d}"`: decimal digits left-padded with zeros to width 4. -/
def pad4 (n : Nat) : String :=
  let s := toString n
  if s.length < 4 then String.mk (List.replicate (4 - s.length) '0') ++ s else s

/-- The identifier emitted by `make_speaker_ids` for counter key `t` at
counter value `c`: `f"SPK_{l1}_{st}_{ctr:04d}"`.  Note the source's format
string uses only the first two components of the key. -/
def spkString (t : Tup) (c : Nat) : String :=
  "SPK_" ++ t.1 ++ "_" ++ t.2.1 ++ "_" ++ pad4 c

/-- Embedding of `make_speaker_ids`: fold over the rows threading the
`defaultdict(int)` counter, emitting one id per row. -/
def make_speaker_ids (rows : List Row) : List String :=
  (rows.foldl
    (fun (acc : (Tup → Nat) × List String) r =>
      let key := rowTuple r
      let c := acc.1 key + 1
      ((fun k => if k = key then c else acc.1 k), acc.2 ++ [spkString key c]))
    ((fun _ => 0), [])).2

/-- Recursive presentation of the `make_speaker_ids` loop, starting from an
arbitrary counter state; used to reason about the fold. -/
def idsFrom (ctr : Tup → Nat) : List Row → List String
  | [] => []
  | r :: rs =>
    let key := rowTuple r
    spkString key (ctr key + 1) ::
      idsFrom (fun k => if k = key then ctr key + 1 else ctr k) rs

/-- Number of rows of `rows` whose counter key is `t`. -/
def tupleCount (rows : List Row) (t : Tup) : Nat :=
  (rows.filter (fun r => rowTuple r = t)).length

/-- A default row, standing in for out-of-range indexing. -/
def Row.dflt : Row :=
  ⟨"", "", .empty, "", "", "", "", ""⟩

/-- One JSONL item as produced by `to_jsonl_item`. -/
structure Item where
  audio_filepath : String
  duration : Option PFloat
  text : String
  speaker_id : String
  l1 : String
  state : String
  gender : String
  domain : String
deriving DecidableEq, Repr

/-- A default item, standing in for out-of-range indexing. -/
def Item.dflt : Item :=
  ⟨"", none, "", "", "", "", "", ""⟩

/-- Embedding of `pick_domain`: the first non-empty field in
`DOMAIN_PRIORITY = ["occupation_domain", "job_category"]` order, else
`"general"`. -/
def pick_domain (r : Row) : String :=
  if r.occupation_domain ≠ "" then r.occupation_domain
  else if r.job_category ≠ "" then r.job_category
  else "general"

/-- Embedding of `to_jsonl_item`: `float(r["duration"]) if r.get("duration")
else None`; an unparseable non-empty duration raises, which only a rejected
row could carry. -/
def to_jsonl_item (r : Row) (spk : String) : Except String Item :=
  match r.duration with
  | .unparseable => .error "ValueError: could not convert string to float"
  | d =>
    .ok
      { audio_filepath := r.path
        duration :=
          match d with
          | .empty => none
          | .numeric q => some (.val q)
          | _ => some .nan
        text := r.text
        speaker_id := spk
        l1 := r.primary_language
        state := r.native_place_state
        gender := r.gender
        domain := pick_domain r }

/-- Stratification label of a speaker group: `f"{l1}|{state}"` of its first
item. -/
def labelOf (g : List Item) : String :=
  (g.headD Item.dflt).l1 ++ "|" ++ (g.headD Item.dflt).state

/-- Linear congruential step driving the model's seeded permutation (the
stand-in for numpy's seeded generator inside `train_test_split`). -/
def lcgNext (s : Nat) : Nat := (1103515245 * s + 12345) % 2147483648

/-- Remove and return the element at index `i`, if any. -/
def pickOut (i : Nat) : List α → Option (α × List α)
  | [] => none
  | x :: xs =>
    match i with
    | 0 => some (x, xs)
    | i + 1 =>
      match pickOut i xs with
      | some (y, ys) => some (y, x :: ys)
      | none => none

/-- Fuelled selection shuffle: repeatedly extract a pseudo-randomly chosen
element. -/
def shuffleGo (s : Nat) : Nat → List α → List α
  | 0, l => l
  | fuel + 1, l =>
    match pickOut (s % l.length) l with
    | some (y, ys) => y :: shuffleGo (lcgNext s) fuel ys
    | none => l

/-- The deterministic seeded permutation used by the `train_test_split`
model. -/
def shuffle (s : Nat) (l : List α) : List α := shuffleGo s l.length l

/-- Number of test samples for a fractional `test_size = num/den` over `n`
samples: `ceil(n * num / den)`, as sklearn computes it. -/
def nTestOf (num den n : Nat) : Nat := (n * num + (den - 1)) / den

/-- Model of unstratified `train_test_split(l, test_size=num/den,
random_state=s)`: validates that neither side of the split is empty (else
`ValueError`), then splits a seeded permutation. -/
def ttsPlain (num den s : Nat) (l : List α) : Except String (List α × List α) :=
  let n := l.length
  let nt := nTestOf num den n
  if n = 0 ∨ n - nt = 0 ∨ nt = 0 then .error "invalid split sizes"
  else
    let p := shuffle s l
    .ok (p.drop nt, p.take nt)

/-- Per-class piece of the stratified `train_test_split` model: the members
of class `c` (kept in input order), shuffled with the seeded permutation and
cut at the per-class test count. -/
def classPart (num den s : Nat) (pairs : List (α × String)) (c : String) :
    List α × List α :=
  let members := (pairs.filter (fun p => p.2 = c)).map Prod.fst
  let ntc := nTestOf num den members.length
  let pm := shuffle s members
  (pm.drop ntc, pm.take ntc)

/-- Model of stratified `train_test_split(l, test_size=num/den,
random_state=s, stratify=y)`: validates split sizes, that the least
populated class has at least 2 members, and that each side has room for
every class (the `ValueError`s sklearn documents), then splits each class
with `classPart` and concatenates the per-class rests and tests. -/
def ttsStrat (num den s : Nat) (l : List α) (y : List String) :
    Except String (List α × List α) :=
  let n := l.length
  let nt := nTestOf num den n
  let classes := y.dedup
  if n = 0 ∨ n - nt = 0 ∨ nt = 0 then .error "invalid split sizes"
  else if classes.any (fun c => y.count c < 2) then
    .error "the least populated class in y has only 1 member"
  else if nt < classes.length ∨ n - nt < classes.length then
    .error "split size smaller than the number of classes"
  else
    let parts := classes.map (classPart num den s (l.zip y))
    .ok ((parts.map Prod.fst).flatten, (parts.map Prod.snd).flatten)

/-- One step of the `by_spk[it["speaker_id"]].append(it)` loop over an
insertion-ordered association list. -/
def addToGroups : List (String × List Item) → Item → List (String × List Item)
  | [], it => [(it.speaker_id, [it])]
  | (k, g) :: rest, it =>
    if k = it.speaker_id then (k, g ++ [it]) :: rest
    else (k, g) :: addToGroups rest it

/-- Embedding of the `by_spk` grouping: insertion-ordered keyed groups of
items sharing a `speaker_id`. -/
def groupBySpk (items : List Item) : List (String × List Item) :=
  items.foldl addToGroups []

/-- Split seed `random_state=42`. -/
def SEED : Nat := 42

/-- The `try/except ValueError` pattern around `train_test_split`: use the
first result unless it raised, in which case run the fallback. -/
def orFallback (x fb : Except String (β × β)) : Except String (β × β) :=
  match x with
  | .ok p => .ok p
  | .error _ => fb

/-- The first (test) split of `stratified_speaker_splits`: label every
group, attempt a stratified split, and fall back to an unstratified split
on `ValueError`. -/
def firstSplit (tn td s : Nat) (groups : List (List Item)) :
    Except String (List (List Item) × List (List Item)) :=
  orFallback (ttsStrat tn td s groups (groups.map labelOf))
    (ttsPlain tn td s groups)

/-- The second (train/dev) split of `stratified_speaker_splits`: re-label
`rest`, stratify only when more than one distinct label remains
(`stratify=y_rest if len(set(y_rest)) > 1 else None`), and fall back to an
unstratified split on `ValueError`. -/
def secondSplit (dn dd s : Nat) (rest : List (List Item)) :
    Except String (List (List Item) × List (List Item)) :=
  orFallback
    (if 1 < ((rest.map labelOf).dedup).length
      then ttsStrat dn dd s rest (rest.map labelOf)
      else ttsPlain dn dd s rest)
    (ttsPlain dn dd s rest)

/-- Embedding of `stratified_speaker_splits`, generalized over the two
fractions and the seed (in the source they are the constants
`TEST_SIZE = 0.15`, `DEV_FRACTION_OF_REST = 0.10`, `random_state = 42`):
group by speaker, split groups into rest/test, split rest into train/dev,
then flatten each side back to items.  An uncaught `ValueError` from a
fallback split propagates and aborts the run. -/
def splitsWith (tn td dn dd s : Nat) (items : List Item) :
    Except String (List Item × List Item × List Item) :=
  match firstSplit tn td s ((groupBySpk items).map Prod.snd) with
  | .error e => .error e
  | .ok (rest, test) =>
    match secondSplit dn dd s rest with
    | .error e => .error e
    | .ok (train, dev) => .ok (train.flatten, dev.flatten, test.flatten)

/-- Embedding of `stratified_speaker_splits` at the source's constants. -/
def stratified_speaker_splits (items : List Item) :
    Except String (List Item × List Item × List Item) :=
  splitsWith 15 100 10 100 SEED items

/-- Embedding of `main` up to the partition computation: abort on an empty
manifest, run the quality gate, assign speaker ids, build JSONL items
(propagating a `float` conversion error) and split.  An `error` result means
the run aborts before any partition is written. -/
def runPipeline (fs : FileSystem) (rows : List Row) :
    Except String (List Item × List Item × List Item) := do
  if rows = [] then throw "No rows in manifest" else
  let kept := (qc_rows fs rows).1
  let spks := make_speaker_ids kept
  let items ← (kept.zip spks).mapM (fun p => to_jsonl_item p.1 p.2)
  stratified_speaker_splits items

/-- Disjointness of the speaker-id sets of two groups. -/
def SpkDisj (g g' : List Item) : Prop :=
  ∀ a ∈ g, ∀ b ∈ g', a.speaker_id ≠ b.speaker_id

/-- Truth value of a run having aborted with an uncaught exception. -/
def isError : Except String β → Bool
  | .error _ => true
  | .ok _ => false

/-- Example row: a female hindi speaker from Delhi (other fields blank). -/
def rowF : Row :=
  { Row.dflt with
    primary_language := "hindi", native_place_state := "Delhi", gender := "F" }

/-- Example row: a male hindi speaker from Delhi. -/
def rowM : Row :=
  { Row.dflt with
    primary_language := "hindi", native_place_state := "Delhi", gender := "M" }

/-- Example row whose manifest duration field is empty. -/
def rowEmptyDur : Row :=
  { Row.dflt with path := "clip.wav", text := "hello", duration := .empty }

/-- A filesystem on which every file exists but no audio header is
readable. -/
def fsUnreadable : FileSystem := fun _ => .unreadable

/-- A filesystem whose every path is a 16 kHz audio file of 83200 frames,
i.e. measured duration 5.20 s. -/
def fsClip52 : FileSystem := fun _ => .audio 16000 83200

/-- A filesystem whose every path has measured duration exactly 0.3 s. -/
def fsClip03 : FileSystem := fun _ => .audio 16000 4800

/-- A filesystem whose every path has measured duration exactly 30.0 s. -/
def fsClip30 : FileSystem := fun _ => .audio 16000 480000

/-- Example row claiming a 5.00 s duration. -/
def rowClaim500 : Row :=
  { Row.dflt with path := "clip.wav", text := "hello", duration := .numeric 5 }

/-- Example row claiming a 5.15 s duration. -/
def rowClaim515 : Row :=
  { Row.dflt with
    path := "clip.wav", text := "hello", duration := .numeric (103/20) }

/-- Example row claiming a 5.30 s duration. -/
def rowClaim530 : Row :=
  { Row.dflt with
    path := "clip.wav", text := "hello", duration := .numeric (53/10) }

/-- An example item with a given speaker id and language. -/
def exItem (spk l1 : String) : Item :=
  { Item.dflt with speaker_id := spk, l1 := l1 }

/-- Three single-item speaker groups sharing one stratification label. -/
def exItems3 : List Item :=
  [exItem "a" "hindi", exItem "b" "hindi", exItem "c" "hindi"]

/-- Two single-item speaker groups with two distinct stratification
labels. -/
def exItems2 : List Item :=
  [exItem "a" "hindi", exItem "b" "tamil"]

/-- Three single-item speaker groups where the label of the third is held by
only one group. -/
def exItemsSparse : List Item :=
  [exItem "a" "hindi", exItem "b" "hindi", exItem "c" "tamil"]

theorem make_speaker_ids_foldl (rows : List Row) :
    ∀ (ctr : Tup → Nat) (out : List String),
      (rows.foldl
        (fun (acc : (Tup → Nat) × List String) r =>
          let key := rowTuple r
          let c := acc.1 key + 1
          ((fun k => if k = key then c else acc.1 k), acc.2 ++ [spkString key c]))
        (ctr, out)).2 = out ++ idsFrom ctr rows := by
  induction rows with
  | nil => intro ctr out; simp [idsFrom]
  | cons r rs ih =>
      intro ctr out
      simp only [List.foldl_cons, idsFrom]
      rw [ih]
      simp

theorem idsFrom_getD (rows : List Row) :
    ∀ (ctr : Tup → Nat) (i : Nat), i < rows.length →
      (idsFrom ctr rows).getD i "" =
        spkString (rowTuple (rows.getD i Row.dflt))
          (ctr (rowTuple (rows.getD i Row.dflt)) +
            tupleCount (rows.take (i + 1)) (rowTuple (rows.getD i Row.dflt))) := by
  induction rows with
  | nil => intro ctr i h; simp at h
  | cons r rs ih =>
      intro ctr i h
      match i with
      | 0 =>
          simp [idsFrom, tupleCount, List.getD]
      | Nat.succ i =>
          have hi : i < rs.length := by simpa using h
          simp only [idsFrom, List.getD_cons_succ, List.take_succ_cons]
          rw [ih _ i hi]
          by_cases hk : rowTuple (rs.getD i Row.dflt) = rowTuple r
          · simp only [tupleCount, List.filter_cons, if_pos hk,
              decide_eq_true (Eq.symm hk), List.length_cons, if_true]
            rw [← hk]
            congr 1
            omega
          · simp only [tupleCount, List.filter_cons, if_neg hk,
              decide_eq_false (Ne.symm hk), Bool.false_eq_true, if_false]

theorem make_speaker_ids_getD (rows : List Row) (i : Nat) (h : i < rows.length) :
    (make_speaker_ids rows).getD i "" =
      spkString (rowTuple (rows.getD i Row.dflt))
        (tupleCount (rows.take (i + 1)) (rowTuple (rows.getD i Row.dflt))) := by
  unfold make_speaker_ids
  rw [make_speaker_ids_foldl rows (fun _ => 0) []]
  simpa using idsFrom_getD rows (fun _ => 0) i h

theorem pickOut_perm :
    ∀ (l : List α) (i : Nat) (y : α) (ys : List α),
      pickOut i l = some (y, ys) → (y :: ys).Perm l := by
  intro l
  induction l with
  | nil => intro i y ys h; simp [pickOut] at h
  | cons x xs ih =>
      intro i y ys h
      match i with
      | 0 =>
          simp only [pickOut, Option.some.injEq, Prod.mk.injEq] at h
          obtain ⟨rfl, rfl⟩ := h
          exact List.Perm.refl _
      | Nat.succ i =>
          simp only [pickOut] at h
          cases hp : pickOut i xs with
          | none => rw [hp] at h; simp at h
          | some p =>
              obtain ⟨y', ys'⟩ := p
              rw [hp] at h
              simp only [Option.some.injEq, Prod.mk.injEq] at h
              obtain ⟨rfl, rfl⟩ := h
              exact (List.Perm.swap x y' ys').trans ((ih i y' ys' hp).cons x)

theorem shuffleGo_perm :
    ∀ (fuel s : Nat) (l : List α), (shuffleGo s fuel l).Perm l := by
  intro fuel
  induction fuel with
  | zero => intro s l; exact List.Perm.refl _
  | succ fuel ih =>
      intro s l
      simp only [shuffleGo]
      cases hp : pickOut (s % l.length) l with
      | none => exact List.Perm.refl _
      | some p =>
          obtain ⟨y, ys⟩ := p
          exact ((ih (lcgNext s) ys).cons y).trans (pickOut_perm l _ y ys hp)

theorem shuffle_perm (s : Nat) (l : List α) : (shuffle s l).Perm l :=
  shuffleGo_perm l.length s l

theorem drop_append_take_perm (n : Nat) (l : List α) :
    (l.drop n ++ l.take n).Perm l := by
  refine List.Perm.trans List.perm_append_comm ?_
  rw [List.take_append_drop]

theorem ttsPlain_ok_perm {num den s : Nat} {l a b : List α}
    (h : ttsPlain num den s l = .ok (a, b)) : (a ++ b).Perm l := by
  simp only [ttsPlain] at h
  split at h
  · exact absurd h (by simp)
  · simp only [Except.ok.injEq, Prod.mk.injEq] at h
    obtain ⟨rfl, rfl⟩ := h
    exact (drop_append_take_perm _ _).trans (shuffle_perm s l)

theorem middle_swap_perm (a b c d : List α) :
    ((a ++ b) ++ (c ++ d)).Perm ((a ++ c) ++ (b ++ d)) := by
  rw [List.append_assoc, List.append_assoc]
  refine List.Perm.append_left a ?_
  refine List.Perm.trans List.perm_append_comm ?_
  rw [List.append_assoc]
  exact List.Perm.append_left c List.perm_append_comm

theorem filter_comm_of_ne {c c' : String} (h : c' ≠ c)
    (pairs : List (α × String)) :
    pairs.filter (fun p => p.2 = c') =
      (pairs.filter (fun p => p.2 ≠ c)).filter (fun p => p.2 = c') := by
  induction pairs with
  | nil => rfl
  | cons p ps ih =>
      simp only [List.filter_cons, decide_eq_true_eq]
      by_cases h1 : p.2 = c'
      · have h2 : p.2 ≠ c := fun he => h (h1.symm.trans he)
        rw [if_pos h1, if_pos h2]
        simp only [List.filter_cons, decide_eq_true_eq]
        rw [if_pos h1, ih]
      · by_cases h2 : p.2 = c
        · rw [if_neg h1, if_neg (not_not_intro h2), ih]
        · rw [if_neg h1, if_pos h2]
          simp only [List.filter_cons, decide_eq_true_eq]
          rw [if_neg h1, ih]

theorem classPart_flatten_perm (num den s : Nat) :
    ∀ (classes : List String) (pairs : List (α × String)),
      classes.Nodup → (∀ p ∈ pairs, p.2 ∈ classes) →
      (((classes.map (classPart num den s pairs)).map Prod.fst).flatten ++
        ((classes.map (classPart num den s pairs)).map Prod.snd).flatten).Perm
        (pairs.map Prod.fst) := by
  intro classes
  induction classes with
  | nil =>
      intro pairs _ hcov
      have : pairs = [] := by
        cases pairs with
        | nil => rfl
        | cons p ps => exact absurd (hcov p (by simp)) (by simp)
      subst this
      simp
  | cons c cs ih =>
      intro pairs hnd hcov
      have hc : c ∉ cs := (List.nodup_cons.mp hnd).1
      have hnd' : cs.Nodup := (List.nodup_cons.mp hnd).2
      have hmapeq :
          cs.map (classPart num den s pairs) =
            cs.map (classPart num den s (pairs.filter (fun p => p.2 ≠ c))) := by
        refine List.map_congr_left ?_
        intro c' hc'
        have hne : c' ≠ c := fun he => hc (he ▸ hc')
        simp only [classPart]
        rw [← filter_comm_of_ne hne]
      have hcov' : ∀ p ∈ pairs.filter (fun p => p.2 ≠ c), p.2 ∈ cs := by
        intro p hp
        have hmem := List.mem_of_mem_filter hp
        have hne : p.2 ≠ c := by
          have := List.of_mem_filter hp
          simpa using this
        rcases List.mem_cons.mp (hcov p hmem) with h | h
        · exact absurd h hne
        · exact h
      have hih := ih (pairs.filter (fun p => p.2 ≠ c)) hnd' hcov'
      simp only [List.map_cons, List.flatten_cons]
      rw [hmapeq]
      refine (middle_swap_perm _ _ _ _).trans ?_
      have hhead :
          ((classPart num den s pairs c).1 ++ (classPart num den s pairs c).2).Perm
            ((pairs.filter (fun p => p.2 = c)).map Prod.fst) := by
        simp only [classPart]
        exact (drop_append_take_perm _ _).trans (shuffle_perm _ _)
      refine (hhead.append hih).trans ?_
      have hsplit :
          ((pairs.filter (fun p => p.2 = c)).map Prod.fst ++
            (pairs.filter (fun p => p.2 ≠ c)).map Prod.fst).Perm
            (pairs.map Prod.fst) := by
        rw [← List.map_append]
        refine List.Perm.map Prod.fst ?_
        have := List.filter_append_perm (fun p : α × String => decide (p.2 = c)) pairs
        simpa using this
      exact hsplit

theorem ttsStrat_ok_perm {num den s : Nat} {l : List α} {y : List String}
    {a b : List α} (hy : l.length ≤ y.length)
    (h : ttsStrat num den s l y = .ok (a, b)) : (a ++ b).Perm l := by
  simp only [ttsStrat] at h
  split at h
  · simp at h
  · split at h
    · simp at h
    · split at h
      · simp at h
      · simp only [Except.ok.injEq, Prod.mk.injEq] at h
        obtain ⟨rfl, rfl⟩ := h
        have hperm := classPart_flatten_perm num den s y.dedup (l.zip y)
          (List.nodup_dedup y)
          (fun p hp => List.mem_dedup.mpr (List.of_mem_zip hp).2)
        rw [List.map_fst_zip l y hy] at hperm
        exact hperm

theorem addToGroups_key :
    ∀ (gs : List (String × List Item)) (it : Item),
      (∀ kg ∈ gs, ∀ a ∈ kg.2, a.speaker_id = kg.1) →
      ∀ kg ∈ addToGroups gs it, ∀ a ∈ kg.2, a.speaker_id = kg.1 := by
  intro gs
  induction gs with
  | nil =>
      intro it _ kg hkg a ha
      simp only [addToGroups, List.mem_singleton] at hkg
      subst hkg
      simp only [List.mem_singleton] at ha
      subst ha
      rfl
  | cons g gs ih =>
      intro it hinv kg hkg a ha
      obtain ⟨k, grp⟩ := g
      simp only [addToGroups] at hkg
      by_cases hk : k = it.speaker_id
      · rw [if_pos hk] at hkg
        rcases List.mem_cons.mp hkg with rfl | hmem
        · rcases List.mem_append.mp ha with h1 | h1
          · exact hinv (k, grp) (by simp) a h1
          · simp only [List.mem_singleton] at h1
            subst h1
            exact hk.symm
        · exact hinv kg (List.mem_cons_of_mem _ hmem) a ha
      · rw [if_neg hk] at hkg
        rcases List.mem_cons.mp hkg with rfl | hmem
        · exact hinv (k, grp) (by simp) a ha
        · exact ih it (fun kg' h' => hinv kg' (List.mem_cons_of_mem _ h')) kg hmem a ha

theorem addToGroups_keysSub :
    ∀ (gs : List (String × List Item)) (it : Item) (k : String),
      k ∈ (addToGroups gs it).map Prod.fst →
      k ∈ gs.map Prod.fst ∨ k = it.speaker_id := by
  intro gs
  induction gs with
  | nil =>
      intro it k hk
      simp only [addToGroups, List.map_cons, List.map_nil, List.mem_singleton] at hk
      right; exact hk
  | cons g gs ih =>
      intro it k hk
      obtain ⟨k0, grp⟩ := g
      simp only [addToGroups] at hk
      by_cases h0 : k0 = it.speaker_id
      · rw [if_pos h0] at hk
        simp only [List.map_cons, List.mem_cons] at hk
        rcases hk with rfl | hk
        · left; simp
        · left; exact List.mem_cons_of_mem _ hk
      · rw [if_neg h0] at hk
        simp only [List.map_cons, List.mem_cons] at hk
        rcases hk with rfl | hk
        · left; simp
        · rcases ih it k hk with h | h
          · left; exact List.mem_cons_of_mem _ h
          · right; exact h

theorem addToGroups_keysNodup :
    ∀ (gs : List (String × List Item)) (it : Item),
      (gs.map Prod.fst).Nodup → ((addToGroups gs it).map Prod.fst).Nodup := by
  intro gs
  induction gs with
  | nil => intro it _; simp [addToGroups]
  | cons g gs ih =>
      intro it hnd
      obtain ⟨k0, grp⟩ := g
      simp only [List.map_cons, List.nodup_cons] at hnd
      simp only [addToGroups]
      by_cases h0 : k0 = it.speaker_id
      · rw [if_pos h0]
        simp only [List.map_cons, List.nodup_cons]
        exact hnd
      · rw [if_neg h0]
        simp only [List.map_cons, List.nodup_cons]
        refine ⟨?_, ih it hnd.2⟩
        intro hmem
        rcases addToGroups_keysSub gs it k0 hmem with h | h
        · exact hnd.1 h
        · exact h0 h

theorem addToGroups_flatten_perm (gs : List (String × List Item)) (it : Item) :
    (((addToGroups gs it).map Prod.snd).flatten).Perm
      ((gs.map Prod.snd).flatten ++ [it]) := by
  induction gs with
  | nil => simp [addToGroups]
  | cons g gs ih =>
      obtain ⟨k0, grp⟩ := g
      simp only [addToGroups]
      by_cases h0 : k0 = it.speaker_id
      · rw [if_pos h0]
        simp only [List.map_cons, List.flatten_cons]
        rw [List.append_assoc, List.append_assoc]
        exact List.Perm.append_left grp List.perm_append_comm
      · rw [if_neg h0]
        simp only [List.map_cons, List.flatten_cons]
        refine (List.Perm.append_left grp ih).trans ?_
        rw [← List.append_assoc]

theorem foldl_addToGroups_key (items : List Item) :
    ∀ gs, (∀ kg ∈ gs, ∀ a ∈ kg.2, a.speaker_id = kg.1) →
      ∀ kg ∈ items.foldl addToGroups gs, ∀ a ∈ kg.2, a.speaker_id = kg.1 := by
  induction items with
  | nil => intro gs h; exact h
  | cons it items ih =>
      intro gs h
      exact ih (addToGroups gs it) (addToGroups_key gs it h)

theorem groupBySpk_key (items : List Item) :
    ∀ kg ∈ groupBySpk items, ∀ a ∈ kg.2, a.speaker_id = kg.1 :=
  foldl_addToGroups_key items [] (by simp)

theorem foldl_addToGroups_nodup (items : List Item) :
    ∀ gs, (gs.map Prod.fst).Nodup →
      ((items.foldl addToGroups gs).map Prod.fst).Nodup := by
  induction items with
  | nil => intro gs h; exact h
  | cons it items ih =>
      intro gs h
      exact ih (addToGroups gs it) (addToGroups_keysNodup gs it h)

theorem groupBySpk_keysNodup (items : List Item) :
    ((groupBySpk items).map Prod.fst).Nodup :=
  foldl_addToGroups_nodup items [] (by simp)

theorem foldl_addToGroups_flatten (items : List Item) :
    ∀ gs, (((items.foldl addToGroups gs).map Prod.snd).flatten).Perm
      ((gs.map Prod.snd).flatten ++ items) := by
  induction items with
  | nil => intro gs; simp
  | cons it items ih =>
      intro gs
      refine (ih (addToGroups gs it)).trans ?_
      refine (List.Perm.append_right items (addToGroups_flatten_perm gs it)).trans ?_
      rw [List.append_assoc]
      simp only [List.singleton_append]
      exact List.Perm.refl _

theorem groupBySpk_flatten_perm (items : List Item) :
    (((groupBySpk items).map Prod.snd).flatten).Perm items := by
  have h := foldl_addToGroups_flatten items []
  simpa [groupBySpk] using h


theorem SpkDisj.symm {g g' : List Item} (h : SpkDisj g g') : SpkDisj g' g :=
  fun a ha b hb => (h b hb a ha).symm

theorem groupBySpk_pairwise (items : List Item) :
    ((groupBySpk items).map Prod.snd).Pairwise SpkDisj := by
  rw [List.pairwise_map]
  have h1 : List.Pairwise
      (fun kg kg' : String × List Item => kg.1 ≠ kg'.1) (groupBySpk items) :=
    List.pairwise_map.mp (groupBySpk_keysNodup items)
  refine h1.imp_of_mem ?_
  intro kg kg' hmem hmem' hne a ha b hb
  rw [groupBySpk_key items kg hmem a ha, groupBySpk_key items kg' hmem' b hb]
  exact hne

theorem firstSplit_ok_perm {tn td s : Nat} {groups rest test : List (List Item)}
    (h : firstSplit tn td s groups = .ok (rest, test)) :
    (rest ++ test).Perm groups := by
  unfold firstSplit orFallback at h
  cases hs : ttsStrat tn td s groups (groups.map labelOf) with
  | ok p =>
      obtain ⟨a, b⟩ := p
      simp only [hs, Except.ok.injEq, Prod.mk.injEq] at h
      obtain ⟨rfl, rfl⟩ := h
      exact ttsStrat_ok_perm (by simp) hs
  | error e =>
      simp only [hs] at h
      exact ttsPlain_ok_perm h

theorem secondSplit_ok_perm {dn dd s : Nat} {rest train dev : List (List Item)}
    (h : secondSplit dn dd s rest = .ok (train, dev)) :
    (train ++ dev).Perm rest := by
  unfold secondSplit orFallback at h
  by_cases hc : 1 < ((rest.map labelOf).dedup).length
  · rw [if_pos hc] at h
    cases hs : ttsStrat dn dd s rest (rest.map labelOf) with
    | ok p =>
        obtain ⟨a, b⟩ := p
        simp only [hs, Except.ok.injEq, Prod.mk.injEq] at h
        obtain ⟨rfl, rfl⟩ := h
        exact ttsStrat_ok_perm (by simp) hs
    | error e =>
        simp only [hs] at h
        exact ttsPlain_ok_perm h
  · rw [if_neg hc] at h
    cases hs : ttsPlain dn dd s rest with
    | ok p =>
        obtain ⟨a, b⟩ := p
        simp only [hs, Except.ok.injEq, Prod.mk.injEq] at h
        obtain ⟨rfl, rfl⟩ := h
        exact ttsPlain_ok_perm hs
    | error e =>
        simp only [hs] at h
        simp at h

theorem splitsWith_ok_inv {tn td dn dd s : Nat} {items tr dv te : List Item}
    (h : splitsWith tn td dn dd s items = .ok (tr, dv, te)) :
    ∃ train dev test : List (List Item),
      (((train ++ dev) ++ test).Perm ((groupBySpk items).map Prod.snd)) ∧
      tr = train.flatten ∧ dv = dev.flatten ∧ te = test.flatten := by
  unfold splitsWith at h
  cases hf : firstSplit tn td s ((groupBySpk items).map Prod.snd) with
  | error e => rw [hf] at h; simp at h
  | ok p =>
      obtain ⟨rest, test⟩ := p
      simp only [hf] at h
      cases hs : secondSplit dn dd s rest with
      | error e => simp only [hs] at h; simp at h
      | ok q =>
          obtain ⟨train, dev⟩ := q
          simp only [hs] at h
          simp only [Except.ok.injEq, Prod.mk.injEq] at h
          obtain ⟨rfl, rfl, rfl⟩ := h
          refine ⟨train, dev, test, ?_, rfl, rfl, rfl⟩
          exact (List.Perm.append_right test (secondSplit_ok_perm hs)).trans
            (firstSplit_ok_perm hf)

theorem splitsWith_groups_pairwise {tn td dn dd s : Nat} {items tr dv te : List Item}
    (h : splitsWith tn td dn dd s items = .ok (tr, dv, te)) :
    ∃ train dev test : List (List Item),
      tr = train.flatten ∧ dv = dev.flatten ∧ te = test.flatten ∧
      ((train ++ dev) ++ test).Pairwise SpkDisj := by
  obtain ⟨train, dev, test, hperm, h1, h2, h3⟩ := splitsWith_ok_inv h
  refine ⟨train, dev, test, h1, h2, h3, ?_⟩
  have hpw := groupBySpk_pairwise items
  exact ((hperm.pairwise_iff (fun {g g'} hgg => hgg.symm)).mpr) hpw

theorem mem_ite_cases {c : Prop} [Decidable c] {x y : String}
    (h : x ∈ (if c then [y] else [])) : c ∧ x = y := by
  by_cases hc : c
  · rw [if_pos hc] at h
    simp only [List.mem_singleton] at h
    exact ⟨hc, h⟩
  · rw [if_neg hc] at h
    simp at h

theorem too_short_mem_iff (fs : FileSystem) (r : Row) :
    "too_short" ∈ qcReasons fs r ↔
      ∃ d, resolvedDuration fs r = some d ∧ PFloat.ltQ d MIN_DUR = true := by
  unfold qcReasons
  constructor
  · intro h
    rcases List.mem_append.mp h with h | hD
    · rcases List.mem_append.mp h with h | hC
      · rcases List.mem_append.mp h with hA | hB
        · exact absurd (mem_ite_cases hA).2 (by decide)
        · exact absurd (mem_ite_cases hB).2 (by decide)
      · rcases hd : resolvedDuration fs r with _ | d
        · simp only [hd, List.mem_singleton] at hC
          exact absurd hC (by decide)
        · simp only [hd] at hC
          rcases List.mem_append.mp hC with hC1 | hC2
          · exact ⟨d, rfl, (mem_ite_cases hC1).1⟩
          · exact absurd (mem_ite_cases hC2).2 (by decide)
    · rcases hm2 : dur_manifest r.duration with _ | m
      · simp only [hm2] at hD
        simp at hD
      · rcases hf2 : file_duration_sec fs r.path with _ | f
        · simp only [hm2, hf2] at hD
          simp at hD
        · simp only [hm2, hf2] at hD
          exact absurd (mem_ite_cases hD).2 (by decide)
  · rintro ⟨d, hd, hlt⟩
    refine List.mem_append.mpr (Or.inl ?_)
    refine List.mem_append.mpr (Or.inr ?_)
    rw [hd]
    simp [hlt]

theorem too_long_mem_iff (fs : FileSystem) (r : Row) :
    "too_long" ∈ qcReasons fs r ↔
      ∃ d, resolvedDuration fs r = some d ∧ PFloat.gtQ d MAX_DUR = true := by
  unfold qcReasons
  constructor
  · intro h
    rcases List.mem_append.mp h with h | hD
    · rcases List.mem_append.mp h with h | hC
      · rcases List.mem_append.mp h with hA | hB
        · exact absurd (mem_ite_cases hA).2 (by decide)
        · exact absurd (mem_ite_cases hB).2 (by decide)
      · rcases hd : resolvedDuration fs r with _ | d
        · simp only [hd, List.mem_singleton] at hC
          exact absurd hC (by decide)
        · simp only [hd] at hC
          rcases List.mem_append.mp hC with hC1 | hC2
          · exact absurd (mem_ite_cases hC1).2 (by decide)
          · exact ⟨d, rfl, (mem_ite_cases hC2).1⟩
    · rcases hm2 : dur_manifest r.duration with _ | m
      · simp only [hm2] at hD
        simp at hD
      · rcases hf2 : file_duration_sec fs r.path with _ | f
        · simp only [hm2, hf2] at hD
          simp at hD
        · simp only [hm2, hf2] at hD
          exact absurd (mem_ite_cases hD).2 (by decide)
  · rintro ⟨d, hd, hgt⟩
    refine List.mem_append.mpr (Or.inl ?_)
    refine List.mem_append.mpr (Or.inr ?_)
    rw [hd]
    refine List.mem_append.mpr (Or.inr ?_)
    simp [hgt]

theorem mismatch_mem_iff (fs : FileSystem) (r : Row) :
    "duration_mismatch" ∈ qcReasons fs r ↔
      ∃ m f, dur_manifest r.duration = some m ∧
        file_duration_sec fs r.path = some f ∧
        PFloat.absDiffGt m f DUR_ABS_TOL = true := by
  unfold qcReasons
  constructor
  · intro h
    rcases List.mem_append.mp h with h | hD
    · rcases List.mem_append.mp h with h | hC
      · rcases List.mem_append.mp h with hA | hB
        · exact absurd (mem_ite_cases hA).2 (by decide)
        · exact absurd (mem_ite_cases hB).2 (by decide)
      · rcases hd : resolvedDuration fs r with _ | d
        · simp only [hd, List.mem_singleton] at hC
          exact absurd hC (by decide)
        · simp only [hd] at hC
          rcases List.mem_append.mp hC with hC1 | hC2
          · exact absurd (mem_ite_cases hC1).2 (by decide)
          · exact absurd (mem_ite_cases hC2).2 (by decide)
    · rcases hm2 : dur_manifest r.duration with _ | m
      · simp only [hm2] at hD
        simp at hD
      · rcases hf2 : file_duration_sec fs r.path with _ | f
        · simp only [hm2, hf2] at hD
          simp at hD
        · simp only [hm2, hf2] at hD
          exact ⟨m, f, rfl, rfl, (mem_ite_cases hD).1⟩
  · rintro ⟨m, f, hm, hf, habs⟩
    refine List.mem_append.mpr (Or.inr ?_)
    rw [hm, hf]
    simp [habs]

theorem getD_take_eq {l : List Row} {i n : Nat} (h1 : i < n) (h2 : i < l.length) :
    (l.take n).getD i Row.dflt = l.getD i Row.dflt := by
  have hl : i < (l.take n).length := by
    simp only [List.length_take]
    omega
  rw [List.getD_eq_getElem _ _ hl, List.getD_eq_getElem _ _ h2]
  exact List.getElem_take ..

theorem getD_drop_eq {l : List Row} {m k : Nat} (h : m + k < l.length) :
    (l.drop m).getD k Row.dflt = l.getD (m + k) Row.dflt := by
  have hl : k < (l.drop m).length := by
    simp only [List.length_drop]
    omega
  rw [List.getD_eq_getElem _ _ hl, List.getD_eq_getElem _ _ h]
  exact List.getElem_drop ..

theorem filter_length_pos_of_getD {l : List Row} {k : Nat} {t : Tup}
    (hk : k < l.length) (ht : rowTuple (l.getD k Row.dflt) = t) :
    0 < (l.filter (fun r => rowTuple r = t)).length := by
  have hmem : l.getD k Row.dflt ∈ l := by
    rw [List.getD_eq_getElem _ _ hk]
    exact List.getElem_mem ..
  exact List.length_pos_of_mem
    (List.mem_filter.mpr ⟨hmem, by simp only [decide_eq_true_eq]; exact ht⟩)

theorem tupleCount_pos {rows : List Row} {i : Nat} (h : i < rows.length) :
    1 ≤ tupleCount (rows.take (i + 1)) (rowTuple (rows.getD i Row.dflt)) := by
  unfold tupleCount
  have hl : i < (rows.take (i + 1)).length := by
    simp only [List.length_take]
    omega
  exact filter_length_pos_of_getD hl (by rw [getD_take_eq (by omega) h])

theorem tupleCount_take_lt {rows : List Row} {i j : Nat} (hij : i < j)
    (hj : j < rows.length)
    (heq : rowTuple (rows.getD i Row.dflt) = rowTuple (rows.getD j Row.dflt)) :
    tupleCount (rows.take (i + 1)) (rowTuple (rows.getD i Row.dflt)) <
      tupleCount (rows.take (j + 1)) (rowTuple (rows.getD i Row.dflt)) := by
  have hsplit : rows.take (j + 1) =
      rows.take (i + 1) ++ (rows.drop (i + 1)).take (j - i) := by
    rw [← List.take_add]
    congr 1
    omega
  rw [hsplit]
  unfold tupleCount
  rw [List.filter_append, List.length_append]
  have hlen1 : j - (i + 1) < ((rows.drop (i + 1)).take (j - i)).length := by
    simp only [List.length_take, List.length_drop]
    omega
  have hget : ((rows.drop (i + 1)).take (j - i)).getD (j - (i + 1)) Row.dflt =
      rows.getD j Row.dflt := by
    rw [getD_take_eq (by omega) (by simp only [List.length_drop]; omega)]
    rw [getD_drop_eq (by omega)]
    congr 1
    omega
  have hpos := filter_length_pos_of_getD (l := (rows.drop (i + 1)).take (j - i))
    hlen1 (by rw [hget, ← heq])
  omega

theorem nTest15_bounds (n : Nat) (h : 3 ≤ n) :
    1 ≤ nTestOf 15 100 n ∧ nTestOf 15 100 n + 2 ≤ n := by
  unfold nTestOf
  omega

theorem nTest10_bounds (m : Nat) (h : 2 ≤ m) :
    1 ≤ nTestOf 10 100 m ∧ nTestOf 10 100 m + 1 ≤ m := by
  unfold nTestOf
  omega

theorem ttsPlain15_ok (s : Nat) (l : List (List Item)) (h : 3 ≤ l.length) :
    ttsPlain 15 100 s l =
      .ok ((shuffle s l).drop (nTestOf 15 100 l.length),
           (shuffle s l).take (nTestOf 15 100 l.length)) := by
  have hb := nTest15_bounds l.length h
  simp only [ttsPlain]
  rw [if_neg (by omega :
    ¬(l.length = 0 ∨ l.length - nTestOf 15 100 l.length = 0 ∨
      nTestOf 15 100 l.length = 0))]

theorem ttsPlain10_not_err (s : Nat) (rest : List (List Item))
    (h : 2 ≤ rest.length) : isError (ttsPlain 10 100 s rest) = false := by
  have hb := nTest10_bounds rest.length h
  simp only [ttsPlain]
  rw [if_neg (by omega :
    ¬(rest.length = 0 ∨ rest.length - nTestOf 10 100 rest.length = 0 ∨
      nTestOf 10 100 rest.length = 0))]
  rfl

theorem secondSplit10_not_err (s : Nat) (rest : List (List Item))
    (h : 2 ≤ rest.length) : isError (secondSplit 10 100 s rest) = false := by
  have hp := ttsPlain10_not_err s rest h
  unfold secondSplit orFallback
  by_cases hc : 1 < ((rest.map labelOf).dedup).length
  · rw [if_pos hc]
    cases hs : ttsStrat 10 100 s rest (rest.map labelOf) with
    | ok p => simp only [hs]; rfl
    | error e => simp only [hs]; exact hp
  · rw [if_neg hc]
    cases hs : ttsPlain 10 100 s rest with
    | ok p => simp only [hs]; rfl
    | error e => rw [hs] at hp; exact absurd hp (by simp [isError])

theorem ttsPlain15_small_err (s : Nat) (l : List (List Item))
    (h : l.length < 2) : ttsPlain 15 100 s l = .error "invalid split sizes" := by
  simp only [ttsPlain]
  rw [if_pos (by unfold nTestOf; omega :
    (l.length = 0 ∨ l.length - nTestOf 15 100 l.length = 0 ∨
      nTestOf 15 100 l.length = 0))]

theorem ttsStrat15_small_err (s : Nat) (l : List (List Item)) (y : List String)
    (h : l.length < 2) : ttsStrat 15 100 s l y = .error "invalid split sizes" := by
  simp only [ttsStrat]
  rw [if_pos (by unfold nTestOf; omega :
    (l.length = 0 ∨ l.length - nTestOf 15 100 l.length = 0 ∨
      nTestOf 15 100 l.length = 0))]

/-- C1: for every input set of kept records, after the splitter assigns
speaker groups to train/dev/test, every pair of the three output partitions
has disjoint sets of `speaker_id` values: no `speaker_id` occurs in records
of two different partitions. -/
theorem claim_C1_speaker_disjoint (items tr dv te : List Item)
    (h : stratified_speaker_splits items = .ok (tr, dv, te)) :
    (∀ a ∈ tr, ∀ b ∈ dv, a.speaker_id ≠ b.speaker_id) ∧
    (∀ a ∈ tr, ∀ b ∈ te, a.speaker_id ≠ b.speaker_id) ∧
    (∀ a ∈ dv, ∀ b ∈ te, a.speaker_id ≠ b.speaker_id) := by
  have h' : splitsWith 15 100 10 100 SEED items = .ok (tr, dv, te) := h
  obtain ⟨train, dev, test, h1, h2, h3, hpw⟩ := splitsWith_groups_pairwise h'
  subst h1
  subst h2
  subst h3
  rw [List.pairwise_append] at hpw
  obtain ⟨hpw1, _, hcross2⟩ := hpw
  rw [List.pairwise_append] at hpw1
  obtain ⟨_, _, hcross1⟩ := hpw1
  refine ⟨?_, ?_, ?_⟩
  · intro a ha b hb
    obtain ⟨g, hg, hag⟩ := List.mem_flatten.mp ha
    obtain ⟨g', hg', hbg⟩ := List.mem_flatten.mp hb
    exact hcross1 g hg g' hg' a hag b hbg
  · intro a ha b hb
    obtain ⟨g, hg, hag⟩ := List.mem_flatten.mp ha
    obtain ⟨g', hg', hbg⟩ := List.mem_flatten.mp hb
    exact hcross2 g (List.mem_append_left _ hg) g' hg' a hag b hbg
  · intro a ha b hb
    obtain ⟨g, hg, hag⟩ := List.mem_flatten.mp ha
    obtain ⟨g', hg', hbg⟩ := List.mem_flatten.mp hb
    exact hcross2 g (List.mem_append_right _ hg) g' hg' a hag b hbg

/-- C1 witness: the disjointness facts at the concrete three-speaker
input. -/
theorem claim_C1_speaker_disjoint_witness :
    (∀ a ∈ [exItem "b" "hindi"], ∀ b ∈ [exItem "c" "hindi"],
      a.speaker_id ≠ b.speaker_id) ∧
    (∀ a ∈ [exItem "b" "hindi"], ∀ b ∈ [exItem "a" "hindi"],
      a.speaker_id ≠ b.speaker_id) ∧
    (∀ a ∈ [exItem "c" "hindi"], ∀ b ∈ [exItem "a" "hindi"],
      a.speaker_id ≠ b.speaker_id) :=
  claim_C1_speaker_disjoint exItems3 [exItem "b" "hindi"] [exItem "c" "hindi"]
    [exItem "a" "hindi"] (by rfl)

/-- C4: for every input set of kept records, the multiset union of the
train, dev and test record sets produced by the splitter equals the kept set
exactly: every kept record appears in exactly one partition and no record
appears twice. -/
theorem claim_C4_partition_exact (items tr dv te : List Item)
    (h : stratified_speaker_splits items = .ok (tr, dv, te)) :
    (↑tr + ↑dv + ↑te : Multiset Item) = (↑items : Multiset Item) := by
  have h' : splitsWith 15 100 10 100 SEED items = .ok (tr, dv, te) := h
  obtain ⟨train, dev, test, hperm, h1, h2, h3⟩ := splitsWith_ok_inv h'
  subst h1
  subst h2
  subst h3
  have h2 := hperm.flatten
  rw [List.flatten_append, List.flatten_append] at h2
  have h3 := h2.trans (groupBySpk_flatten_perm items)
  have h4 : ((train.flatten ++ dev.flatten) ++ test.flatten).Perm items := h3
  have h5 := Multiset.coe_eq_coe.mpr h4
  simpa using h5

/-- C4 witness: the partition identity at the concrete three-speaker
input. -/
theorem claim_C4_partition_exact_witness :
    (↑[exItem "b" "hindi"] + ↑[exItem "c" "hindi"] + ↑[exItem "a" "hindi"] :
      Multiset Item) = (↑exItems3 : Multiset Item) :=
  claim_C4_partition_exact exItems3 [exItem "b" "hindi"] [exItem "c" "hindi"]
    [exItem "a" "hindi"] (by rfl)

/-- C6: for a fixed input record sequence, seed and pair of fractions, two
runs of the splitter produce identical group-to-partition assignments: the
split is a pure function of those inputs alone (the embedding gives it no
access to a clock or ambient randomness), and the source's
`stratified_speaker_splits` is that function at `TEST_SIZE = 0.15`,
`DEV_FRACTION_OF_REST = 0.10`, `random_state = 42`. -/
theorem claim_C6_deterministic (tn td dn dd s : Nat) (items items' : List Item)
    (h : items = items') :
    splitsWith tn td dn dd s items = splitsWith tn td dn dd s items' ∧
    stratified_speaker_splits items = splitsWith 15 100 10 100 42 items' := by
  subst h
  exact ⟨rfl, rfl⟩

/-- C6 witness: two runs on the concrete three-speaker input coincide. -/
theorem claim_C6_deterministic_witness :
    splitsWith 15 100 10 100 42 exItems3 = splitsWith 15 100 10 100 42 exItems3 ∧
    stratified_speaker_splits exItems3 = splitsWith 15 100 10 100 42 exItems3 :=
  claim_C6_deterministic 15 100 10 100 42 exItems3 exItems3 rfl

/-- C7 (amended): for every item set with at least three speaker groups in
which some stratification label is represented by fewer groups than the
number of target subsets, the stratified attempt raises, the splitter falls
back at that boundary to the unstratified split with the same target
fraction, and the run completes without aborting.  (With exactly two groups
the fallback at the test boundary still succeeds but the subsequent
train/dev split aborts the run, so three groups are required.) -/
theorem claim_C7_sparse_fallback (items : List Item)
    (h3 : 3 ≤ ((groupBySpk items).map Prod.snd).length)
    (hsparse : ((((groupBySpk items).map Prod.snd).map labelOf).dedup.any
      (fun c =>
        (((groupBySpk items).map Prod.snd).map labelOf).count c < 2)) = true) :
    isError (ttsStrat 15 100 SEED ((groupBySpk items).map Prod.snd)
      (((groupBySpk items).map Prod.snd).map labelOf)) = true ∧
    firstSplit 15 100 SEED ((groupBySpk items).map Prod.snd) =
      ttsPlain 15 100 SEED ((groupBySpk items).map Prod.snd) ∧
    isError (stratified_speaker_splits items) = false := by
  set groups := ((groupBySpk items).map Prod.snd) with hg
  have hsz : ¬(groups.length = 0 ∨
      groups.length - nTestOf 15 100 groups.length = 0 ∨
      nTestOf 15 100 groups.length = 0) := by
    have := nTest15_bounds groups.length h3
    omega
  have hstrat : ttsStrat 15 100 SEED groups (groups.map labelOf) =
      .error "the least populated class in y has only 1 member" := by
    simp only [ttsStrat]
    rw [if_neg hsz, if_pos hsparse]
  have hfirst : firstSplit 15 100 SEED groups = ttsPlain 15 100 SEED groups := by
    unfold firstSplit orFallback
    rw [hstrat]
  refine ⟨by rw [hstrat]; rfl, hfirst, ?_⟩
  have hplain := ttsPlain15_ok SEED groups h3
  have hrest : 2 ≤ ((shuffle SEED groups).drop (nTestOf 15 100 groups.length)).length := by
    have hlen : (shuffle SEED groups).length = groups.length :=
      (shuffle_perm SEED groups).length_eq
    simp only [List.length_drop, hlen]
    have := nTest15_bounds groups.length h3
    omega
  have hsecond := secondSplit10_not_err SEED
    ((shuffle SEED groups).drop (nTestOf 15 100 groups.length)) hrest
  show isError (splitsWith 15 100 10 100 SEED items) = false
  unfold splitsWith
  rw [← hg, hfirst, hplain]
  cases hs : secondSplit 10 100 SEED
      ((shuffle SEED groups).drop (nTestOf 15 100 groups.length)) with
  | ok q =>
      obtain ⟨a, b⟩ := q
      simp only [hs]
      rfl
  | error e =>
      rw [hs] at hsecond
      exact absurd hsecond (by simp [isError])

/-- C7 witness: the fallback and completed run at a concrete three-group
input whose `tamil|` label is held by a single group. -/
theorem claim_C7_sparse_fallback_witness :
    isError (ttsStrat 15 100 SEED ((groupBySpk exItemsSparse).map Prod.snd)
      (((groupBySpk exItemsSparse).map Prod.snd).map labelOf)) = true ∧
    firstSplit 15 100 SEED ((groupBySpk exItemsSparse).map Prod.snd) =
      ttsPlain 15 100 SEED ((groupBySpk exItemsSparse).map Prod.snd) ∧
    isError (stratified_speaker_splits exItemsSparse) = false :=
  claim_C7_sparse_fallback exItemsSparse (by decide) (by decide)

/-- C7 counterexample: a two-group input whose every label is held by a
single group.  The stratified attempt raises and the splitter falls back as
the claim says, but the run still aborts (the fallback leaves a single
group for the train/dev boundary, where both attempts raise), refuting
"the run completes without aborting" as universally stated. -/
theorem claim_C7_two_group_abort :
    ((((groupBySpk exItems2).map Prod.snd).map labelOf).dedup.any
      (fun c =>
        (((groupBySpk exItems2).map Prod.snd).map labelOf).count c < 2)) = true ∧
    isError (stratified_speaker_splits exItems2) = true := by
  constructor
  · decide
  · rfl

/-- C8: an empty input manifest aborts the run before any partition is
computed or written, and fewer than two speaker groups makes the splitter
abort: the stratified attempt and the unstratified fallback both raise, so
neither condition is recovered by the fallback. -/
theorem claim_C8_fatal_conditions (fs : FileSystem) (rows : List Row)
    (items : List Item) :
    (rows = [] → runPipeline fs rows = .error "No rows in manifest") ∧
    ((groupBySpk items).length < 2 →
      isError (stratified_speaker_splits items) = true) := by
  constructor
  · intro h
    subst h
    rfl
  · intro h
    have hlen : ((groupBySpk items).map Prod.snd).length < 2 := by simpa using h
    have hstrat := ttsStrat15_small_err SEED ((groupBySpk items).map Prod.snd)
      (((groupBySpk items).map Prod.snd).map labelOf) hlen
    have hplain := ttsPlain15_small_err SEED ((groupBySpk items).map Prod.snd) hlen
    have hfirst : firstSplit 15 100 SEED ((groupBySpk items).map Prod.snd) =
        .error "invalid split sizes" := by
      unfold firstSplit orFallback
      rw [hstrat]
      exact hplain
    show isError (splitsWith 15 100 10 100 SEED items) = true
    unfold splitsWith
    rw [hfirst]
    rfl

/-- C8 witness: the empty manifest and a one-group item set both abort. -/
theorem claim_C8_fatal_conditions_witness :
    runPipeline fsUnreadable [] = .error "No rows in manifest" ∧
    isError (stratified_speaker_splits [exItem "a" "hindi"]) = true :=
  ⟨(claim_C8_fatal_conditions fsUnreadable [] [exItem "a" "hindi"]).1 rfl,
   (claim_C8_fatal_conditions fsUnreadable [] [exItem "a" "hindi"]).2 (by decide)⟩

/-- C2 (code-bug exhibit): `rowEmptyDur` has no measured duration (its
header is unreadable) and an empty claimed-duration field, yet the gate
appends no reason at all and keeps the record: the `or "nan"` default turns
the empty field into NaN, which is not `None`, so the `no_duration` branch
is skipped and NaN silently passes both bound checks.  The claim's
`no_duration` rejection only happens for a non-empty unparseable field,
whose parse raises and is caught as `None` (final conjunct). -/
theorem claim_C2_empty_duration_kept :
    file_duration_sec fsUnreadable rowEmptyDur.path = none ∧
    dur_manifest rowEmptyDur.duration = some PFloat.nan ∧
    qcReasons fsUnreadable rowEmptyDur = [] ∧
    (qc_rows fsUnreadable [rowEmptyDur]).1 = [rowEmptyDur] ∧
    qcReasons fsUnreadable { rowEmptyDur with duration := .unparseable } =
      ["no_duration"] := by
  decide

/-- C3 (code-bug exhibit): the emitted identifier uses only the language and
state components of the counter key, so two records whose tuples differ only
in gender receive the very same `speaker_id`, against the claim (and the
source's own "unique speaker ID ... to avoid collisions" comments). -/
theorem claim_C3_gender_collision :
    rowTuple rowF ≠ rowTuple rowM ∧
    make_speaker_ids [rowF, rowM] =
      ["SPK_hindi_Delhi_0001", "SPK_hindi_Delhi_0001"] ∧
    (make_speaker_ids [rowF, rowM]).getD 0 "" =
      (make_speaker_ids [rowF, rowM]).getD 1 "" := by
  decide

/-- C5: for a record carrying both a claimed and a measured duration, a gap
above the 0.10 s tolerance puts `duration_mismatch` among its reasons and
routes it to the rejected list, while a gap within tolerance (with every
other check passing) keeps the record and overwrites its stored duration
with the measured value (3-decimal formatted). -/
theorem claim_C5_duration_consistency (fs : FileSystem) (r : Row) (m f : ℚ)
    (hm : dur_manifest r.duration = some (.val m))
    (hf : file_duration_sec fs r.path = some f) :
    (DUR_ABS_TOL < |m - f| →
      "duration_mismatch" ∈ qcReasons fs r ∧
      (qc_rows fs [r]).2 = [(r, qcReasons fs r)]) ∧
    (|m - f| ≤ DUR_ABS_TOL → fs r.path ≠ .absent → 1 ≤ tokenCount r.text →
      ¬(f < MIN_DUR) → ¬(MAX_DUR < f) →
      qcReasons fs r = [] ∧
      (qc_rows fs [r]).1 = [keptRow fs r] ∧
      (keptRow fs r).duration = .numeric (fmt3 f)) := by
  constructor
  · intro hgt
    have hmem : "duration_mismatch" ∈ qcReasons fs r :=
      (mismatch_mem_iff fs r).mpr ⟨.val m, f, hm, hf, by
        simp only [PFloat.absDiffGt, decide_eq_true_eq]
        exact hgt⟩
    have hne : qcReasons fs r ≠ [] := List.ne_nil_of_mem hmem
    exact ⟨hmem, by simp [qc_rows, hne]⟩
  · intro hle hpath htok hmin hmax
    have hres : resolvedDuration fs r = some (.val f) := by
      unfold resolvedDuration
      rw [hf]
    have h2 : ¬(REQUIRE_MIN_TOKENS ≠ 0 ∧
        tokenCount r.text < REQUIRE_MIN_TOKENS) := by
      rintro ⟨_, hlt2⟩
      unfold REQUIRE_MIN_TOKENS at hlt2
      omega
    have h3 : PFloat.ltQ (.val f) MIN_DUR = false := by
      simp only [PFloat.ltQ]
      exact decide_eq_false hmin
    have h4 : PFloat.gtQ (.val f) MAX_DUR = false := by
      simp only [PFloat.gtQ]
      exact decide_eq_false hmax
    have h5 : PFloat.absDiffGt (.val m) f DUR_ABS_TOL = false := by
      simp only [PFloat.absDiffGt]
      exact decide_eq_false (not_lt.mpr hle)
    have hreasons : qcReasons fs r = [] := by
      unfold qcReasons
      rw [hres, hm, hf]
      simp [hpath, h2, h3, h4, h5]
    refine ⟨hreasons, by simp [qc_rows, hreasons], ?_⟩
    unfold keptRow
    rw [hf]

/-- C5 witness: measured 5.20 s against claimed 5.00 s is rejected with
`duration_mismatch`; against claimed 5.15 s it is kept with stored duration
5.20 s. -/
theorem claim_C5_duration_consistency_witness :
    ("duration_mismatch" ∈ qcReasons fsClip52 rowClaim500 ∧
      (qc_rows fsClip52 [rowClaim500]).2 =
        [(rowClaim500, qcReasons fsClip52 rowClaim500)]) ∧
    (qcReasons fsClip52 rowClaim515 = [] ∧
      (qc_rows fsClip52 [rowClaim515]).1 = [keptRow fsClip52 rowClaim515] ∧
      (keptRow fsClip52 rowClaim515).duration = .numeric (fmt3 (26/5))) := by
  have hf : file_duration_sec fsClip52 "clip.wav" = some (26/5 : ℚ) := by
    simp only [file_duration_sec, fsClip52]
    norm_num
  have habs1 : DUR_ABS_TOL < |(5 : ℚ) - 26/5| := by
    have h : (5 : ℚ) - 26/5 = -(1/5) := by norm_num
    rw [h, abs_neg, abs_of_pos (by norm_num : (0 : ℚ) < 1/5)]
    norm_num [DUR_ABS_TOL]
  have habs2 : |(103/20 : ℚ) - 26/5| ≤ DUR_ABS_TOL := by
    have h : (103/20 : ℚ) - 26/5 = -(1/20) := by norm_num
    rw [h, abs_neg, abs_of_pos (by norm_num : (0 : ℚ) < 1/20)]
    norm_num [DUR_ABS_TOL]
  exact ⟨(claim_C5_duration_consistency fsClip52 rowClaim500 5 (26/5)
      rfl hf).1 habs1,
    (claim_C5_duration_consistency fsClip52 rowClaim515 (103/20) (26/5)
      rfl hf).2 habs2 (by decide) (by decide)
      (by norm_num [MIN_DUR]) (by norm_num [MAX_DUR])⟩

/-- C9: records with identical counter tuples receive strictly increasing
counter values in input order starting at 1, and every emitted identifier
is the format string applied at that counter value; in particular the tuple
`("hindi","Delhi","F")` occurring three times yields
`SPK_hindi_Delhi_0001`, `SPK_hindi_Delhi_0002`, `SPK_hindi_Delhi_0003` in
order. -/
theorem claim_C9_counter_order :
    (∀ (rows : List Row) (i j : Nat), i < j → j < rows.length →
      rowTuple (rows.getD i Row.dflt) = rowTuple (rows.getD j Row.dflt) →
      1 ≤ tupleCount (rows.take (i + 1)) (rowTuple (rows.getD i Row.dflt)) ∧
      tupleCount (rows.take (i + 1)) (rowTuple (rows.getD i Row.dflt)) <
        tupleCount (rows.take (j + 1)) (rowTuple (rows.getD j Row.dflt)) ∧
      (make_speaker_ids rows).getD i "" =
        spkString (rowTuple (rows.getD i Row.dflt))
          (tupleCount (rows.take (i + 1)) (rowTuple (rows.getD i Row.dflt))) ∧
      (make_speaker_ids rows).getD j "" =
        spkString (rowTuple (rows.getD j Row.dflt))
          (tupleCount (rows.take (j + 1)) (rowTuple (rows.getD j Row.dflt)))) ∧
    make_speaker_ids [rowF, rowF, rowF] =
      ["SPK_hindi_Delhi_0001", "SPK_hindi_Delhi_0002", "SPK_hindi_Delhi_0003"] := by
  constructor
  · intro rows i j hij hj heq
    have hi : i < rows.length := lt_trans hij hj
    refine ⟨tupleCount_pos hi, ?_, make_speaker_ids_getD rows i hi,
      make_speaker_ids_getD rows j hj⟩
    rw [← heq]
    exact tupleCount_take_lt hij hj heq
  · decide

/-- C9 witness: the order facts for the first and third occurrence of the
concrete `("hindi","Delhi","F")` tuple. -/
theorem claim_C9_counter_order_witness :
    1 ≤ tupleCount ([rowF, rowF, rowF].take (0 + 1))
        (rowTuple ([rowF, rowF, rowF].getD 0 Row.dflt)) ∧
    tupleCount ([rowF, rowF, rowF].take (0 + 1))
        (rowTuple ([rowF, rowF, rowF].getD 0 Row.dflt)) <
      tupleCount ([rowF, rowF, rowF].take (2 + 1))
        (rowTuple ([rowF, rowF, rowF].getD 2 Row.dflt)) ∧
    (make_speaker_ids [rowF, rowF, rowF]).getD 0 "" =
      spkString (rowTuple ([rowF, rowF, rowF].getD 0 Row.dflt))
        (tupleCount ([rowF, rowF, rowF].take (0 + 1))
          (rowTuple ([rowF, rowF, rowF].getD 0 Row.dflt))) ∧
    (make_speaker_ids [rowF, rowF, rowF]).getD 2 "" =
      spkString (rowTuple ([rowF, rowF, rowF].getD 2 Row.dflt))
        (tupleCount ([rowF, rowF, rowF].take (2 + 1))
          (rowTuple ([rowF, rowF, rowF].getD 2 Row.dflt))) :=
  claim_C9_counter_order.1 [rowF, rowF, rowF] 0 2 (by decide) (by decide)
    (by decide)

/-- C10: the quality gate's duration comparisons are strict: a resolved
duration equal to the minimum bound 0.3 s or the maximum bound 30.0 s is not
rejected as `too_short`/`too_long`, and a claimed-vs-measured gap equal to
the 0.10 s tolerance does not produce `duration_mismatch`. -/
theorem claim_C10_strict_comparisons (fs : FileSystem) (r : Row) (m f : ℚ) :
    (resolvedDuration fs r = some (.val MIN_DUR) →
      "too_short" ∉ qcReasons fs r) ∧
    (resolvedDuration fs r = some (.val MAX_DUR) →
      "too_long" ∉ qcReasons fs r) ∧
    (dur_manifest r.duration = some (.val m) →
      file_duration_sec fs r.path = some f → |m - f| = DUR_ABS_TOL →
      "duration_mismatch" ∉ qcReasons fs r) := by
  refine ⟨?_, ?_, ?_⟩
  · intro h hmem
    obtain ⟨d, hd, hlt⟩ := (too_short_mem_iff fs r).mp hmem
    rw [h] at hd
    simp only [Option.some.injEq] at hd
    subst hd
    simp only [PFloat.ltQ, decide_eq_true_eq] at hlt
    exact absurd hlt (lt_irrefl _)
  · intro h hmem
    obtain ⟨d, hd, hgt⟩ := (too_long_mem_iff fs r).mp hmem
    rw [h] at hd
    simp only [Option.some.injEq] at hd
    subst hd
    simp only [PFloat.gtQ, decide_eq_true_eq] at hgt
    exact absurd hgt (lt_irrefl _)
  · intro hm hf heq hmem
    obtain ⟨m', f', hm', hf', habs⟩ := (mismatch_mem_iff fs r).mp hmem
    rw [hm] at hm'
    rw [hf] at hf'
    simp only [Option.some.injEq] at hm' hf'
    subst hm'
    subst hf'
    simp only [PFloat.absDiffGt, decide_eq_true_eq] at habs
    rw [heq] at habs
    exact absurd habs (lt_irrefl _)

/-- C10 witness: measured 0.3 s keeps `too_short` out, measured 30.0 s keeps
`too_long` out, and a gap of exactly 0.10 s (claimed 5.30 s against measured
5.20 s) keeps `duration_mismatch` out. -/
theorem claim_C10_strict_comparisons_witness :
    ("too_short" ∉ qcReasons fsClip03 rowEmptyDur) ∧
    ("too_long" ∉ qcReasons fsClip30 rowEmptyDur) ∧
    ("duration_mismatch" ∉ qcReasons fsClip52 rowClaim530) := by
  have h03 : resolvedDuration fsClip03 rowEmptyDur = some (.val MIN_DUR) := by
    unfold resolvedDuration
    have h1 : file_duration_sec fsClip03 rowEmptyDur.path = some (3/10 : ℚ) := by
      simp only [file_duration_sec, fsClip03]
      norm_num
    rw [h1]
    rfl
  have h30 : resolvedDuration fsClip30 rowEmptyDur = some (.val MAX_DUR) := by
    unfold resolvedDuration
    have h1 : file_duration_sec fsClip30 rowEmptyDur.path = some (30 : ℚ) := by
      simp only [file_duration_sec, fsClip30]
      norm_num
    rw [h1]
    rfl
  have heq : |(53/10 : ℚ) - 26/5| = DUR_ABS_TOL := by
    have h : (53/10 : ℚ) - 26/5 = 1/10 := by norm_num
    rw [h, abs_of_pos (by norm_num : (0 : ℚ) < 1/10)]
    norm_num [DUR_ABS_TOL]
  have hf : file_duration_sec fsClip52 rowClaim530.path = some (26/5 : ℚ) := by
    simp only [file_duration_sec, fsClip52]
    norm_num
  exact ⟨(claim_C10_strict_comparisons fsClip03 rowEmptyDur 0 0).1 h03,
    (claim_C10_strict_comparisons fsClip30 rowEmptyDur 0 0).2.1 h30,
    (claim_C10_strict_comparisons fsClip52 rowClaim530 (53/10) (26/5)).2.2
      rfl hf heq⟩

end AccentBench
